import Mathlib

/-!
Verification of the RubinOT guild monitor collector (src/collector.py).

The collector is a sequential fetch-parse-persist pipeline:
load_target_players reads the operator's player list, get_guild_member_links
scrapes the guild page for profile links, fetch_last_login extracts a
"Last login" value from each profile page, and save_snapshot / append_history
persist the run.  This file embeds those functions shallowly: HTTP fetches
become explicit `Except FetchError` inputs, parsed HTML becomes lists of
anchors or text nodes, and the filesystem effects of a run become an
`Effects` record describing exactly what would be written.
-/

/-- ASCII whitespace as stripped by Python str.strip():
space, tab, newline, carriage return, vertical tab, form feed. -/
def isPyWS (c : Char) : Bool :=
  decide (c = ' ') || decide (c = '\t') || decide (c = '\n') || decide (c = '\r') ||
  decide (c.toNat = 11) || decide (c.toNat = 12)

/-- Model of Python str.strip(): drop ASCII whitespace from both ends. -/
def strip (s : String) : String :=
  ⟨((s.data.dropWhile isPyWS).reverse.dropWhile isPyWS).reverse⟩

/-- Whether the character list starts with the given pattern (exact chars). -/
def leadsWith : List Char → List Char → Bool
  | [], _ => true
  | _ :: _, [] => false
  | p :: ps, c :: cs => decide (p = c) && leadsWith ps cs

/-- Whether the predicate holds of some suffix of the character list. -/
def anyTail (f : List Char → Bool) : List Char → Bool
  | [] => f []
  | c :: cs => f (c :: cs) || anyTail f cs

/-- Substring test over character lists. -/
def listHas (pat l : List Char) : Bool := anyTail (leadsWith pat) l

/-- Substring test on strings: models Python `pat in s` and the CSS
selector a[href*=pat]. -/
def strHas (s pat : String) : Bool := listHas pat.data s.data

/-- Lexicographic comparison of character lists by code point, the order
Python uses to compare strings. -/
def lexLe : List Char → List Char → Bool
  | [], _ => true
  | _ :: _, [] => false
  | a :: as, b :: bs =>
    if a.toNat < b.toNat then true
    else if b.toNat < a.toNat then false
    else lexLe as bs

/-- String order by code points, matching Python string comparison. -/
def strLe (s t : String) : Bool := lexLe s.data t.data

/-- Model of Python sorted() on a list of strings. -/
def strSort (l : List String) : List String :=
  List.insertionSort (fun a b => strLe a b = true) l

/-- Split a character list at the first occurrence of the pattern,
returning the pieces before and after it; none when the pattern is absent. -/
def splitAtSub (pat : List Char) : List Char → Option (List Char × List Char)
  | [] => if leadsWith pat [] then some ([], []) else none
  | c :: cs =>
    if leadsWith pat (c :: cs) then some ([], (c :: cs).drop pat.length)
    else (splitAtSub pat cs).map (fun p => (c :: p.1, p.2))

/-- Modelled from urllib.parse.urlparse: the scheme of a URL of the shape
scheme://host/..., empty when no "://" separator is present. -/
def schemeOf (u : String) : String :=
  match splitAtSub "://".data u.data with
  | some (pre, _) => ⟨pre⟩
  | none => ""

/-- Modelled from urllib.parse.urlparse: the network location (host) part of
a URL of the shape scheme://host/..., empty when no "://" is present. -/
def netlocOf (u : String) : String :=
  match splitAtSub "://".data u.data with
  | some (_, post) =>
    ⟨post.takeWhile (fun c => !(decide (c = '/') || decide (c = '?') || decide (c = '#')))⟩
  | none => ""

/-- Modelled from urllib.parse.urljoin for the link shapes this collector
meets: an empty href keeps the base, an absolute href wins, a
scheme-relative href reuses the base scheme, and a rooted, query-only or
relative href is resolved against the base's scheme and host (resolution
against a deeper base path is simplified to the host root, which agrees
with urljoin for the site's root-level pages). -/
def urljoin (base href : String) : String :=
  if href = "" then base
  else if listHas "://".data href.data then href
  else if leadsWith "//".data href.data then schemeOf base ++ ":" ++ href
  else if leadsWith "/".data href.data then
    schemeOf base ++ "://" ++ netlocOf base ++ href
  else schemeOf base ++ "://" ++ netlocOf base ++ "/" ++ href

/-- One JSON array entry of data/players.json: a string or anything else. -/
inductive JsonEntry where
  | str (s : String)
  | other
deriving DecidableEq

/-- Error raised when data/players.json is missing (FileNotFoundError). -/
inductive PyError where
  | fileNotFound
deriving DecidableEq

/-- Names kept from the players list: string entries, stripped, the ones
non-empty after stripping, then deduplicated (Python set()). -/
def loadedNames (entries : List JsonEntry) : List String :=
  (entries.filterMap (fun e =>
    match e with
    | JsonEntry.str p => if strip p = "" then none else some (strip p)
    | JsonEntry.other => none)).dedup

/-- Embedding of load_target_players: the file content is given as
an optional list of JSON entries, none meaning the file does not exist. -/
def load_target_players (file : Option (List JsonEntry)) :
    Except PyError (List String) :=
  match file with
  | none => Except.error PyError.fileNotFound
  | some entries => Except.ok (loadedNames entries)

/-- An anchor element of the guild page: its rendered text and href. -/
structure Anchor where
  text : String
  href : String
deriving DecidableEq

/-- HTTP failure of a fetch: a non-success status or a network fault. -/
inductive FetchError where
  | httpError (status : Nat)
  | networkFault
deriving DecidableEq

/-- Last-write-wins insertion into an association list, the update
behaviour of a Python dict assignment. -/
def insertLW (m : List (String × String)) (k v : String) : List (String × String) :=
  if m.any (fun p => decide (p.1 = k)) then
    m.map (fun p => if p.1 = k then (k, v) else p)
  else m ++ [(k, v)]

/-- Association-list lookup, the read side of a Python dict. -/
def assocGet : List (String × String) → String → Option String
  | [], _ => none
  | (k, v) :: rest, key => if k = key then some v else assocGet rest key

/-- One anchor's contribution to the member-link dict: anchors whose href
contains 'subtopic=characters' and whose stripped text and href are
non-empty add (name, absolute URL); everything else is skipped. -/
def linkStep (guild_url : String) (m : List (String × String)) (a : Anchor) :
    List (String × String) :=
  if strHas a.href "subtopic=characters" then
    if strip a.text = "" ∨ a.href = "" then m
    else insertLW m (strip a.text) (urljoin guild_url a.href)
  else m

/-- The member_links dict built by scanning the guild page's anchors. -/
def memberLinksFold (guild_url : String) (anchors : List Anchor) :
    List (String × String) :=
  anchors.foldl (linkStep guild_url) []

/-- The fallback profile-URL template built from the guild URL. -/
def fallbackBase (guild_url : String) : String :=
  schemeOf guild_url ++ "://" ++ netlocOf guild_url ++ "/?subtopic=characters&name="

/-- Embedding of get_guild_member_links: the fetched guild page is given
as an `Except` of its anchor elements; an HTTP error propagates
(raise_for_status), otherwise the member dict is built and, when it is
empty, the fallback URL template is returned instead. -/
def get_guild_member_links (guild_url : String)
    (page : Except FetchError (List Anchor)) :
    Except FetchError (List (String × String) × Option String) :=
  match page with
  | Except.error e => Except.error e
  | Except.ok anchors =>
    let member_links := memberLinksFold guild_url anchors
    if member_links = [] then Except.ok ([], some (fallbackBase guild_url))
    else Except.ok (member_links, none)

/-- ASCII lowercasing, the case folding of re.IGNORECASE on these patterns. -/
def lowerChar (c : Char) : Char :=
  if 65 ≤ c.toNat ∧ c.toNat ≤ 90 then Char.ofNat (c.toNat + 32) else c

/-- Case-insensitive character comparison. -/
def charCI (p c : Char) : Bool := decide (lowerChar p = lowerChar c)

/-- Match a literal pattern case-insensitively at the head of the input,
returning the remaining input on success. -/
def matchLitCI : List Char → List Char → Option (List Char)
  | [], rest => some rest
  | _ :: _, [] => none
  | p :: ps, c :: cs => if charCI p c then matchLitCI ps cs else none

/-- Greedily consume the letters matched by the sub-pattern s* under
re.IGNORECASE, i.e. a run of 's' or 'S'. -/
def dropSCI : List Char → List Char
  | [] => []
  | c :: cs => if decide (c = 's') || decide (c = 'S') then dropSCI cs else c :: cs

/-- Whether the collector's label pattern matches at the head of the input.
The source compiles the RAW string r"last\\s*login", whose regex meaning is:
"last", one literal backslash, a run of 's', then "login" (IGNORECASE).
The double backslash is embedded exactly as written in the source. -/
def lastLoginHere (s : List Char) : Bool :=
  match matchLitCI "last".data s with
  | some ('\\' :: rest) => (matchLitCI "login".data (dropSCI rest)).isSome
  | _ => false

/-- Whether re.search finds the label pattern anywhere in the text node. -/
def hasLastLoginPat (s : String) : Bool := anyTail lastLoginHere s.data

/-- Greedily consume a run of lowercase 's', the s* of the split pattern. -/
def dropLowS : List Char → List Char
  | 's' :: cs => dropLowS cs
  | l => l

/-- Model of re.split(r":\\s*", text, maxsplit=1): the raw pattern means a
colon, one literal backslash, then a run of 's'.  Returns the pieces around
the first match, or none when the pattern never matches (a 1-element split). -/
def splitColonBS : List Char → Option (List Char × List Char)
  | [] => none
  | ':' :: '\\' :: rest => some ([], dropLowS rest)
  | c :: cs => (splitColonBS cs).map (fun p => (c :: p.1, p.2))

/-- The twelve literal strings matched by the source's raw pattern
r"\\d{1,2}/\\d{1,2}/\\d{2,4}": regex-wise that is one literal backslash,
one or two literal 'd', '/', backslash, one or two 'd', '/', backslash,
two to four 'd'. -/
def dateSlashPats : List String :=
  ["\\d/\\d/\\dd", "\\d/\\d/\\ddd", "\\d/\\d/\\dddd",
   "\\d/\\dd/\\dd", "\\d/\\dd/\\ddd", "\\d/\\dd/\\dddd",
   "\\dd/\\d/\\dd", "\\dd/\\d/\\ddd", "\\dd/\\d/\\dddd",
   "\\dd/\\dd/\\dd", "\\dd/\\dd/\\ddd", "\\dd/\\dd/\\dddd"]

/-- Model of re.search(r"\\d{1,2}/\\d{1,2}/\\d{2,4}", t) as an existence
test: some alternative of the quantifiers matches at some position. -/
def hasDateSlash (t : String) : Bool :=
  dateSlashPats.any (fun p => listHas p.data t.data)

/-- Model of re.search(r"\\d{4}-\\d{2}-\\d{2}", t): with the doubled
backslashes the pattern is the single literal string below. -/
def hasDateDash (t : String) : Bool :=
  listHas "\\dddd-\\dd-\\dd".data t.data

/-- Digits of a Nat as characters (helper for the ISO formatter). -/
def natDigits (n : Nat) : List Char :=
  (Nat.toDigits 10 n)

/-- Zero-padded two-digit rendering of a Nat below 100. -/
def pad2 (n : Nat) : String :=
  if n < 10 then ⟨'0' :: natDigits n⟩ else ⟨natDigits n⟩

/-- Numeric value of a non-empty all-digit character list. -/
def digitsVal? (l : List Char) : Option Nat :=
  if l ≠ [] ∧ l.all (fun c => decide ('0' ≤ c) && decide (c ≤ '9')) then
    some (l.foldl (fun acc c => acc * 10 + (c.toNat - 48)) 0)
  else none

/-- Split a character list on every occurrence of the given character. -/
def splitOnChar (c : Char) (l : List Char) : List (List Char) :=
  match l with
  | [] => [[]]
  | x :: xs =>
    let rest := splitOnChar c xs
    if x = c then [] :: rest
    else match rest with
      | r :: rs => (x :: r) :: rs
      | [] => [[x]]

/-- Modelled from the spec: dateutil.parser.parse(s, dayfirst=True) followed
by datetime.isoformat() is an external library call not present in src/;
the spec (section 4.3) says raw values are parsed "assuming day-before-month
ordering" and kept only on success.  This model accepts the site's
"DD/MM/YYYY, HH:MM:SS" shape and renders it as YYYY-MM-DDTHH:MM:SS. -/
def parseDayFirstIso (s : String) : Option String :=
  match splitOnChar ',' s.data with
  | [datePart, timePart] =>
    (match splitOnChar '/' (strip ⟨datePart⟩).data,
           splitOnChar ':' (strip ⟨timePart⟩).data with
     | [ds, ms, ys], [hs, mins, secs] =>
       (match digitsVal? ds, digitsVal? ms, digitsVal? ys,
              digitsVal? hs, digitsVal? mins, digitsVal? secs with
        | some d, some m, some _, some hh, some mm, some ss =>
          if 1 ≤ d ∧ d ≤ 31 ∧ 1 ≤ m ∧ m ≤ 12 ∧ ys.length = 4 ∧
             hh < 24 ∧ mm < 60 ∧ ss < 60 then
            some (⟨ys⟩ ++ "-" ++ pad2 m ++ "-" ++ pad2 d ++ "T" ++
                  pad2 hh ++ ":" ++ pad2 mm ++ ":" ++ pad2 ss)
          else none
        | _, _, _, _, _, _ => none)
     | _, _ => none)
  | _ => none

/-- Pass 2 of the extractor: for each text node matching the label pattern,
scan the next four text nodes in document order (the find_all_next window
of the label's parent, which starts back at the label node itself), skipping
empty nodes and the label's own text, for the first date-looking node. -/
def pass2Scan (nodes : List String) : Option String :=
  ((nodes.enum.filter (fun p => hasLastLoginPat p.2)).findSome? (fun p =>
    ((nodes.drop p.1).take 4).findSome? (fun sib =>
      let t := strip sib
      if t = "" ∨ t = strip p.2 then none
      else if hasDateSlash t || hasDateDash t then some t else none)))

/-- Embedding of fetch_last_login: the fetched profile page is given as an
`Except` of its text nodes in document order; an HTTP error propagates.
Pass 1 takes the first node matching the (double-escaped) label pattern and
splits it on the (double-escaped) colon pattern; pass 2 falls back to the
neighbourhood scan; the raw value, when present, is then normalized. -/
def fetch_last_login (page : Except FetchError (List String)) :
    Except FetchError (Option String × Option String) :=
  match page with
  | Except.error e => Except.error e
  | Except.ok nodes =>
    let candidate := nodes.find? (fun t => hasLastLoginPat t)
    let last1 : Option String :=
      match candidate with
      | none => none
      | some cand =>
        match splitColonBS (strip cand).data with
        | some (_, val) =>
          if strip ⟨val⟩ = "" then none else some (strip ⟨val⟩)
        | none => none
    let last_str : Option String :=
      match last1 with
      | some v => some v
      | none => pass2Scan nodes
    let last_iso : Option String :=
      match last_str with
      | some v => parseDayFirstIso v
      | none => none
    Except.ok (last_str, last_iso)

/-- One collected observation of a player, as assembled in main's loop. -/
structure ProfileRecord where
  player : String
  profile_url : String
  last_login_raw : Option String
  last_login_iso : Option String
deriving DecidableEq

/-- One CSV data row of data/history.csv. -/
structure HistoryRow where
  collected_at : String
  player : String
  profile_url : String
  last_login_raw : Option String
  last_login_iso : Option String
deriving DecidableEq

/-- The JSON document written by save_snapshot. -/
structure Snapshot where
  timestamp : String
  guild_url : String
  players : List ProfileRecord
deriving DecidableEq

/-- Colon-to-dash replacement applied to the timestamp in the snapshot
file name (ts.replace with single-character arguments). -/
def replaceColons (l : List Char) : List Char :=
  l.map (fun c => if c = ':' then '-' else c)

/-- Embedding of save_snapshot: the file name derived from the run
timestamp and the JSON document content. -/
def save_snapshot (collection_ts_iso guild_url : String)
    (rows : List ProfileRecord) : String × Snapshot :=
  ("snapshot_" ++ (⟨replaceColons collection_ts_iso.data⟩ : String) ++ ".json",
   ⟨collection_ts_iso, guild_url, rows⟩)

/-- Embedding of append_history: the Bool records whether the header row is
written (exactly when the history file did not previously exist), and the
list holds the data rows appended, one per record, in order. -/
def append_history (file_exists : Bool) (collection_ts_iso : String)
    (rows : List ProfileRecord) : Bool × List HistoryRow :=
  (!file_exists,
   rows.map (fun r =>
     ⟨collection_ts_iso, r.player, r.profile_url, r.last_login_raw, r.last_login_iso⟩))

/-- The external world of one run: the players file content (none when the
file is missing), the guild page fetch outcome, each profile URL's fetch
outcome, the configured guild URL, whether data/history.csv already exists,
and the run timestamp taken at persistence time. -/
structure RunEnv where
  playersFile : Option (List JsonEntry)
  guildPage : Except FetchError (List Anchor)
  profilePages : String → Except FetchError (List String)
  guild_url : String
  historyExists : Bool
  runTs : String

/-- Filesystem writes of one run: the snapshot file (name and content) if
one is written, and the history append (header flag and data rows) if one
happens.  none means the artifact is not created or touched at all. -/
structure Effects where
  snapshot : Option (String × Snapshot)
  history : Option (Bool × List HistoryRow)
deriving DecidableEq

/-- The run aborted (or crashed) before persistence: nothing written. -/
def noEffects : Effects := ⟨none, none⟩

/-- One iteration of main's player loop: look up the guild-page link
(skipping the player, with a warning, when it is absent or falsy), then
fetch the profile; a fetch failure degrades to absent last-login fields. -/
def collectRow (env : RunEnv) (member_links : List (String × String))
    (player : String) : Option ProfileRecord :=
  match assocGet member_links player with
  | none => none
  | some profile_url =>
    if profile_url = "" then none
    else
      match fetch_last_login (env.profilePages profile_url) with
      | Except.ok (raw, iso) => some ⟨player, profile_url, raw, iso⟩
      | Except.error _ => some ⟨player, profile_url, none, none⟩

/-- Embedding of the source function main (renamed: Lean reserves main for program entry points): load the target list, resolve guild member links,
keep only the sorted intersection of targets and confirmed members, collect
one record per focused player, and persist snapshot plus history.  Every
early return (missing or empty players file, guild fetch error, unconfirmed
membership, empty intersection) leaves the filesystem untouched. -/
def runMain (env : RunEnv) : Effects :=
  match load_target_players env.playersFile with
  | Except.error _ => noEffects
  | Except.ok target =>
    if target = [] then noEffects
    else
      match get_guild_member_links env.guild_url env.guildPage with
      | Except.error _ => noEffects
      | Except.ok (member_links, profile_base) =>
        if member_links = [] ∧ profile_base = none then noEffects
        else
          let guild_members := if member_links ≠ [] then member_links.map Prod.fst else []
          if guild_members = [] then noEffects
          else
            let focus := strSort (target.filter (fun p => decide (p ∈ guild_members)))
            if focus = [] then noEffects
            else
              let rows := focus.filterMap (collectRow env member_links)
              { snapshot := some (save_snapshot env.runTs env.guild_url rows)
                history := some (append_history env.historyExists env.runTs rows) }

/-- The target set main works from; empty when loading fails. -/
def targetOf (env : RunEnv) : List String :=
  match load_target_players env.playersFile with
  | Except.error _ => []
  | Except.ok t => t

/-- The member-link dict main works from; empty when the guild fetch fails. -/
def memberLinksOf (env : RunEnv) : List (String × String) :=
  match env.guildPage with
  | Except.error _ => []
  | Except.ok anchors => memberLinksFold env.guild_url anchors

/-- The focus list of the run: the sorted intersection of the target set
with the confirmed guild members, empty whenever main aborts earlier. -/
def focusOf (env : RunEnv) : List String :=
  if targetOf env = [] then []
  else if memberLinksOf env = [] then []
  else strSort ((targetOf env).filter
    (fun p => decide (p ∈ (memberLinksOf env).map Prod.fst)))

/-- The records main collects for the focused players. -/
def rowsOf (env : RunEnv) : List ProfileRecord :=
  (focusOf env).filterMap (collectRow env (memberLinksOf env))

/-- The records of the snapshot written by the run, empty when none is. -/
def snapshotRows (env : RunEnv) : List ProfileRecord :=
  match (runMain env).snapshot with
  | some (_, snap) => snap.players
  | none => []

/-- The data rows appended to the history log by the run, empty when the
file is untouched. -/
def historyRowsOf (env : RunEnv) : List HistoryRow :=
  match (runMain env).history with
  | some (_, rows) => rows
  | none => []

/-- Appending a non-empty string yields a non-empty string. -/
theorem str_append_ne_empty (a b : String) (hb : b ≠ "") : a ++ b ≠ "" := by
  intro h
  apply hb
  cases a; cases b
  simp [String.ext_iff] at h ⊢
  exact h.2

/-- The urljoin model never turns a non-empty href into an empty URL. -/
theorem urljoin_ne_empty (base href : String) (h : href ≠ "") :
    urljoin base href ≠ "" := by
  unfold urljoin
  rw [if_neg h]
  split
  · exact h
  · split
    · exact str_append_ne_empty _ _ h
    · split
      · exact str_append_ne_empty _ _ h
      · exact str_append_ne_empty _ _ h

/-- Last-write-wins insertion never empties the dict. -/
theorem insertLW_ne_nil (m : List (String × String)) (k v : String) :
    insertLW m k v ≠ [] := by
  unfold insertLW
  split
  · next h =>
    intro he
    rw [List.map_eq_nil_iff] at he
    subst he
    simp at h
  · intro he
    simp at he

/-- Every entry of the dict after an insertion carries either the inserted
value or a value already present. -/
theorem insertLW_snd (m : List (String × String)) (k v : String)
    (kv : String × String) (h : kv ∈ insertLW m k v) : kv.2 = v ∨ kv ∈ m := by
  unfold insertLW at h
  split at h
  · rcases List.mem_map.mp h with ⟨p, hp, he⟩
    by_cases hk : p.1 = k
    · left
      rw [if_pos hk] at he
      rw [← he]
    · right
      rw [if_neg hk] at he
      rwa [← he]
  · rcases List.mem_append.mp h with h2 | h2
    · right
      exact h2
    · left
      simp at h2
      rw [h2]

/-- Every value stored by the link-building fold is a non-empty URL. -/
theorem foldl_linkStep_snd (u : String) (as : List Anchor) :
    ∀ acc, (∀ kv ∈ acc, kv.2 ≠ "") →
      ∀ kv ∈ as.foldl (linkStep u) acc, kv.2 ≠ "" := by
  induction as with
  | nil => exact fun acc hacc kv h => hacc kv h
  | cons a as ih =>
    intro acc hacc kv h
    refine ih (linkStep u acc a) ?_ kv h
    intro kv' h'
    unfold linkStep at h'
    split at h'
    · split at h'
      · exact hacc kv' h'
      · next hne =>
        rcases insertLW_snd _ _ _ _ h' with h2 | h2
        · rw [h2]
          exact urljoin_ne_empty u a.href (fun habs => hne (Or.inr habs))
        · exact hacc kv' h2
    · exact hacc kv' h'

/-- Every value of the member-link dict is a non-empty URL. -/
theorem memberLinksOf_snd_ne (env : RunEnv) (kv : String × String)
    (h : kv ∈ memberLinksOf env) : kv.2 ≠ "" := by
  unfold memberLinksOf at h
  split at h
  · simp at h
  · exact foldl_linkStep_snd _ _ [] (fun kv' h' => absurd h' (List.not_mem_nil kv')) kv h

/-- An anchor contributes to the member dict exactly when its href carries
'subtopic=characters' and its stripped text and href are non-empty. -/
def anchorQualifies (a : Anchor) : Prop :=
  strHas a.href "subtopic=characters" = true ∧ ¬(strip a.text = "" ∨ a.href = "")

instance (a : Anchor) : Decidable (anchorQualifies a) := by
  unfold anchorQualifies
  infer_instance

/-- One fold step leaves the dict empty exactly when it was empty and the
anchor does not qualify. -/
theorem linkStep_eq_nil (u : String) (acc : List (String × String)) (a : Anchor) :
    linkStep u acc a = [] ↔ acc = [] ∧ ¬ anchorQualifies a := by
  unfold linkStep anchorQualifies
  split
  · next hm =>
    split
    · next hskip => simp [hm, hskip]
    · next hskip => simp [insertLW_ne_nil, hm, hskip]
  · next hm => simp [hm]

/-- The link fold produces the empty dict exactly when it starts empty and
no anchor qualifies. -/
theorem foldl_linkStep_eq_nil (u : String) (as : List Anchor) :
    ∀ acc, (as.foldl (linkStep u) acc = [] ↔
      acc = [] ∧ ∀ a ∈ as, ¬ anchorQualifies a) := by
  induction as with
  | nil => intro acc; simp
  | cons a as ih =>
    intro acc
    rw [List.foldl_cons, ih, linkStep_eq_nil]
    constructor
    · rintro ⟨⟨h1, h2⟩, h3⟩
      refine ⟨h1, ?_⟩
      intro a' ha'
      rcases List.mem_cons.mp ha' with rfl | ha'
      · exact h2
      · exact h3 a' ha'
    · rintro ⟨h1, h2⟩
      exact ⟨⟨h1, h2 a (List.mem_cons_self a as)⟩,
             fun a' ha' => h2 a' (List.mem_cons_of_mem a ha')⟩

/-- The member dict is empty exactly when no anchor qualifies. -/
theorem memberLinksFold_eq_nil (u : String) (as : List Anchor) :
    memberLinksFold u as = [] ↔ ∀ a ∈ as, ¬ anchorQualifies a := by
  unfold memberLinksFold
  rw [foldl_linkStep_eq_nil]
  simp

/-- A successful dict lookup returns a stored binding. -/
theorem assocGet_mem (m : List (String × String)) (k v : String)
    (h : assocGet m k = some v) : (k, v) ∈ m := by
  induction m with
  | nil => simp [assocGet] at h
  | cons kv rest ih =>
    obtain ⟨k', v'⟩ := kv
    unfold assocGet at h
    split at h
    · next he =>
      injection h with hv
      subst he
      subst hv
      exact List.mem_cons_self _ _
    · exact List.mem_cons_of_mem _ (ih h)

/-- A key present among the dict's keys looks up successfully. -/
theorem assocGet_of_mem_keys (m : List (String × String)) (p : String)
    (h : p ∈ m.map Prod.fst) : ∃ v, assocGet m p = some v := by
  induction m with
  | nil => simp at h
  | cons kv rest ih =>
    obtain ⟨k', v'⟩ := kv
    by_cases he : k' = p
    · exact ⟨v', by simp [assocGet, he]⟩
    · rcases List.mem_map.mp h with ⟨q, hq, hfst⟩
      rcases List.mem_cons.mp hq with rfl | hq2
      · exact absurd hfst he
      · rcases ih (List.mem_map.mpr ⟨q, hq2, hfst⟩) with ⟨v, hv⟩
        exact ⟨v, by simp [assocGet, he, hv]⟩

/-- Totality of the code-point lexicographic order. -/
theorem lexLe_total (a : List Char) : ∀ b, lexLe a b = true ∨ lexLe b a = true := by
  induction a with
  | nil => intro b; left; simp [lexLe]
  | cons x xs ih =>
    intro b
    cases b with
    | nil => right; simp [lexLe]
    | cons y ys =>
      by_cases h1 : x.toNat < y.toNat
      · left; simp [lexLe, h1]
      · by_cases h2 : y.toNat < x.toNat
        · right; simp [lexLe, h2]
        · rcases ih ys with h | h
          · left; simp [lexLe, h1, h2, h]
          · right; simp [lexLe, h1, h2, h]

/-- Transitivity of the code-point lexicographic order. -/
theorem lexLe_trans (a : List Char) :
    ∀ b c, lexLe a b = true → lexLe b c = true → lexLe a c = true := by
  induction a with
  | nil => intro b c _ _; simp [lexLe]
  | cons x xs ih =>
    intro b c hab hbc
    cases b with
    | nil => simp [lexLe] at hab
    | cons y ys =>
      cases c with
      | nil => simp [lexLe] at hbc
      | cons z zs =>
        simp only [lexLe] at hab hbc ⊢
        by_cases h1 : x.toNat < y.toNat
        · by_cases h2 : y.toNat < z.toNat
          · have h3 : x.toNat < z.toNat := by omega
            simp [h3]
          · by_cases h2' : z.toNat < y.toNat
            · simp [h2, h2'] at hbc
            · have h3 : x.toNat < z.toNat := by omega
              simp [h3]
        · by_cases h1' : y.toNat < x.toNat
          · simp [h1, h1'] at hab
          · simp [h1, h1'] at hab
            by_cases h2 : y.toNat < z.toNat
            · have h3 : x.toNat < z.toNat := by omega
              simp [h3]
            · by_cases h2' : z.toNat < y.toNat
              · simp [h2, h2'] at hbc
              · simp [h2, h2'] at hbc
                have h3 : ¬ x.toNat < z.toNat := by omega
                have h3' : ¬ z.toNat < x.toNat := by omega
                simp [h3, h3']
                exact ih ys zs hab hbc

instance : IsTotal String (fun a b => strLe a b = true) :=
  ⟨fun a b => lexLe_total a.data b.data⟩

instance : IsTrans String (fun a b => strLe a b = true) :=
  ⟨fun a b c => lexLe_trans a.data b.data c.data⟩

/-- Evaluation of the whole run in terms of its focus list and collected
rows: an empty focus (covering every early-return path) writes nothing,
otherwise both the snapshot and the history append happen. -/
theorem runMain_eq (env : RunEnv) :
    runMain env =
      if focusOf env = [] then noEffects
      else
        { snapshot := some (save_snapshot env.runTs env.guild_url (rowsOf env))
          history := some (append_history env.historyExists env.runTs (rowsOf env)) } := by
  unfold runMain rowsOf focusOf targetOf memberLinksOf
  cases hpf : env.playersFile with
  | none => simp [load_target_players]
  | some entries =>
    simp only [load_target_players]
    by_cases ht : loadedNames entries = []
    · simp [ht]
    · cases hgp : env.guildPage with
      | error e => simp [ht, get_guild_member_links]
      | ok anchors =>
        by_cases hm : memberLinksFold env.guild_url anchors = []
        · simp [ht, get_guild_member_links, hm]
        · have hmap : memberLinksFold env.guild_url anchors ≠ [] := hm
          simp only [get_guild_member_links, if_neg hm]
          have hkeys : (memberLinksFold env.guild_url anchors).map Prod.fst ≠ [] :=
            fun hx => hm (List.map_eq_nil_iff.mp hx)
          have hif : (if ¬memberLinksFold env.guild_url anchors = [] then
                (memberLinksFold env.guild_url anchors).map Prod.fst else [])
              = (memberLinksFold env.guild_url anchors).map Prod.fst := if_pos hm
          simp only [hif]
          simp [ht, hm, hkeys, strSort]

/-- Every focused player is a key of the member-link dict. -/
theorem focus_sub_keys (env : RunEnv) (p : String) (hp : p ∈ focusOf env) :
    p ∈ (memberLinksOf env).map Prod.fst := by
  unfold focusOf at hp
  split at hp
  · simp at hp
  · split at hp
    · simp at hp
    · unfold strSort at hp
      have hp2 := (List.perm_insertionSort (fun a b => strLe a b = true) _).mem_iff.mp hp
      exact of_decide_eq_true (List.mem_filter.mp hp2).2

/-- Every focused player yields exactly one collected record, carrying that
player's name and its non-empty linked profile URL. -/
theorem collectRow_focus (env : RunEnv) (p : String) (hp : p ∈ focusOf env) :
    ∃ u, assocGet (memberLinksOf env) p = some u ∧ u ≠ "" ∧
      ∃ rec, collectRow env (memberLinksOf env) p = some rec ∧
        rec.player = p ∧ rec.profile_url = u := by
  rcases assocGet_of_mem_keys _ _ (focus_sub_keys env p hp) with ⟨u, hu⟩
  have hne : u ≠ "" := memberLinksOf_snd_ne env (p, u) (assocGet_mem _ _ _ hu)
  refine ⟨u, hu, hne, ?_⟩
  cases hfe : fetch_last_login (env.profilePages u) with
  | ok pr =>
    obtain ⟨raw, iso⟩ := pr
    exact ⟨⟨p, u, raw, iso⟩, by simp [collectRow, hu, hne, hfe], rfl, rfl⟩
  | error e =>
    exact ⟨⟨p, u, none, none⟩, by simp [collectRow, hu, hne, hfe], rfl, rfl⟩

/-- A filterMap whose function succeeds on every element, preserving the
name, maps the player projection back onto the input list. -/
theorem filterMap_player_eq (f : String → Option ProfileRecord) (l : List String)
    (h : ∀ p ∈ l, ∃ rec, f p = some rec ∧ rec.player = p) :
    (l.filterMap f).map ProfileRecord.player = l := by
  induction l with
  | nil => simp
  | cons a as ih =>
    rcases h a (List.mem_cons_self a as) with ⟨rec, hf, hp⟩
    rw [List.filterMap_cons, hf]
    simp only [List.map_cons, hp]
    rw [ih (fun p hp' => h p (List.mem_cons_of_mem a hp'))]

/-- The collected records list the focused players by name, in order. -/
theorem rowsOf_map_player (env : RunEnv) :
    (rowsOf env).map ProfileRecord.player = focusOf env := by
  unfold rowsOf
  apply filterMap_player_eq
  intro p hp
  rcases collectRow_focus env p hp with ⟨u, _, _, rec, hrec, hpl, _⟩
  exact ⟨rec, hrec, hpl⟩

/-- The snapshot's records are exactly the collected rows. -/
theorem snapshotRows_eq (env : RunEnv) : snapshotRows env = rowsOf env := by
  unfold snapshotRows
  rw [runMain_eq]
  by_cases h : focusOf env = []
  · rw [if_pos h]
    unfold rowsOf
    rw [h]
    rfl
  · rw [if_neg h]
    rfl

/-- The appended history data rows are the collected rows, reshaped with
the run timestamp. -/
theorem historyRows_eq (env : RunEnv) :
    historyRowsOf env = (rowsOf env).map (fun r =>
      (⟨env.runTs, r.player, r.profile_url, r.last_login_raw, r.last_login_iso⟩ :
        HistoryRow)) := by
  unfold historyRowsOf
  rw [runMain_eq]
  by_cases h : focusOf env = []
  · rw [if_pos h]
    unfold rowsOf
    rw [h]
    rfl
  · rw [if_neg h]
    rfl

/-- The history data rows list the focused players by name, in order. -/
theorem historyRows_map_player (env : RunEnv) :
    (historyRowsOf env).map HistoryRow.player = focusOf env := by
  rw [historyRows_eq, List.map_map]
  exact rowsOf_map_player env

/-- Guild URL used by the concrete run environments below. -/
def exURL : String := "http://h/?g"

/-- Guild-page href of the example anchor. -/
def exHref : String := "/?subtopic=characters&name=Alice"

/-- Absolute profile URL the resolver builds from exHref against exURL. -/
def exProfile : String := "http://h/?subtopic=characters&name=Alice"

/-- A run whose guild page links one target player and whose profile fetch
fails with a network fault. -/
def exA : RunEnv :=
  { playersFile := some [JsonEntry.str "Alice"]
    guildPage := Except.ok [⟨"Alice", exHref⟩]
    profilePages := fun _ => Except.error FetchError.networkFault
    guild_url := exURL
    historyExists := false
    runTs := "2024-01-01T00:00:00Z" }

/-- A run whose guild page yields no member links at all. -/
def exB : RunEnv :=
  { playersFile := some [JsonEntry.str "Bob"]
    guildPage := Except.ok []
    profilePages := fun _ => Except.error FetchError.networkFault
    guild_url := exURL
    historyExists := false
    runTs := "2024-01-01T00:00:00Z" }

/-- A run whose guild-page fetch fails with an HTTP error. -/
def exC : RunEnv :=
  { playersFile := some [JsonEntry.str "Bob"]
    guildPage := Except.error (FetchError.httpError 500)
    profilePages := fun _ => Except.error FetchError.networkFault
    guild_url := exURL
    historyExists := false
    runTs := "2024-01-01T00:00:00Z" }

/-- A run whose target list and confirmed guild members do not intersect. -/
def exD : RunEnv :=
  { playersFile := some [JsonEntry.str "Bob"]
    guildPage := Except.ok [⟨"Alice", exHref⟩]
    profilePages := fun _ => Except.error FetchError.networkFault
    guild_url := exURL
    historyExists := false
    runTs := "2024-01-01T00:00:00Z" }

/-- C1: for a profile page whose HTML contains the raw text node
"Last login: 24/04/2024, 15:28:07", the claim says fetch_last_login returns
the raw string "24/04/2024, 15:28:07" and a normalized timestamp.  The code
does not: its regexes are written r"last\\s*login" and r":\\s*", whose
doubled backslashes demand a literal backslash character in the page text,
so neither pass ever matches an ordinary "Last login:" node and the
function returns absent raw and absent normalized values. -/
theorem fetch_last_login_example_misses :
    fetch_last_login (Except.ok ["Last login: 24/04/2024, 15:28:07"])
      = Except.ok (none, none) := by
  rfl

/-- C3 counterexample: a hyperlink whose href contains 'subtopic=characters'
is present, yet because its link text strips to empty the resolver returns
the empty mapping together with the fallback template, contradicting the
claim that finding such a hyperlink yields the full mapping and no
fallback. -/
theorem guild_links_claim_counterexample :
    (∃ a ∈ ([⟨" ", "/?subtopic=characters&name=Xyz"⟩] : List Anchor),
        strHas a.href "subtopic=characters" = true) ∧
    get_guild_member_links
        "https://rubinot.com.br/?subtopic=guilds&page=view&GuildName=True+Knife"
        (Except.ok [⟨" ", "/?subtopic=characters&name=Xyz"⟩])
      = Except.ok ([], some "https://rubinot.com.br/?subtopic=characters&name=") := by
  exact ⟨⟨⟨" ", "/?subtopic=characters&name=Xyz"⟩, by simp, by decide⟩, by rfl⟩

/-- C3 (amended): the resolver returns the full last-write-wins mapping and
no fallback base exactly when some hyperlink both carries the
'subtopic=characters' marker in its href and has non-empty stripped link
text (and non-empty href); otherwise it returns the empty mapping plus the
fallback URL template built from the guild URL's scheme and host. -/
theorem get_guild_member_links_spec (guild_url : String) (anchors : List Anchor) :
    if anchors.any (fun a => decide (anchorQualifies a)) then
      get_guild_member_links guild_url (Except.ok anchors)
        = Except.ok (memberLinksFold guild_url anchors, none) ∧
      memberLinksFold guild_url anchors ≠ []
    else
      get_guild_member_links guild_url (Except.ok anchors)
        = Except.ok ([], some (fallbackBase guild_url)) := by
  by_cases h : anchors.any (fun a => decide (anchorQualifies a)) = true
  · rw [if_pos h]
    have hne : memberLinksFold guild_url anchors ≠ [] := by
      intro he
      rcases List.any_eq_true.mp h with ⟨a, ha, hq⟩
      exact (memberLinksFold_eq_nil _ _).mp he a ha (of_decide_eq_true hq)
    exact ⟨by simp [get_guild_member_links, hne], hne⟩
  · rw [if_neg h]
    have hall : ∀ a ∈ anchors, ¬ anchorQualifies a := by
      intro a ha hq
      exact h (List.any_eq_true.mpr ⟨a, ha, decide_eq_true hq⟩)
    simp [get_guild_member_links, (memberLinksFold_eq_nil _ _).mpr hall]

/-- C4: when the resolver comes back from a successful guild-page fetch
with an empty member dict (hence only the fallback template), the
intersection-only run aborts without writing a snapshot or touching the
history log. -/
theorem fallback_only_aborts (env : RunEnv) (anchors : List Anchor)
    (hpage : env.guildPage = Except.ok anchors)
    (hnil : memberLinksFold env.guild_url anchors = []) :
    runMain env = noEffects := by
  rw [runMain_eq]
  have hm : memberLinksOf env = [] := by
    unfold memberLinksOf
    rw [hpage]
    exact hnil
  have hf : focusOf env = [] := by
    unfold focusOf
    simp [hm]
  rw [if_pos hf]

/-- C4 witness: the abort at a concrete run with a linkless guild page. -/
theorem fallback_only_aborts_witness : runMain exB = noEffects :=
  fallback_only_aborts exB [] rfl rfl

/-- C6: a guild-page fetch failure (HTTP error or network fault) terminates
the run with no snapshot written and the history file untouched. -/
theorem guild_fetch_error_aborts (env : RunEnv) (e : FetchError)
    (hpage : env.guildPage = Except.error e) :
    runMain env = noEffects := by
  rw [runMain_eq]
  have hm : memberLinksOf env = [] := by
    unfold memberLinksOf
    rw [hpage]
  have hf : focusOf env = [] := by
    unfold focusOf
    simp [hm]
  rw [if_pos hf]

/-- C6 witness: the abort at a concrete run whose guild fetch returns a
500 status. -/
theorem guild_fetch_error_aborts_witness : runMain exC = noEffects :=
  guild_fetch_error_aborts exC (FetchError.httpError 500) rfl

/-- C10: when the target set and the confirmed guild members do not
intersect, the run terminates with no snapshot file and no history rows,
not even a header. -/
theorem empty_intersection_no_artifacts (env : RunEnv)
    (h : (targetOf env).filter
        (fun p => decide (p ∈ (memberLinksOf env).map Prod.fst)) = []) :
    runMain env = noEffects := by
  rw [runMain_eq]
  have hf : focusOf env = [] := by
    unfold focusOf
    by_cases h1 : targetOf env = []
    · simp [h1]
    · by_cases h2 : memberLinksOf env = []
      · simp [h1, h2]
      · simp only [if_neg h1, if_neg h2]
        rw [h]
        rfl
  rw [if_pos hf]

/-- C10 witness: the zero-match termination at a concrete run whose only
target is not a listed guild member. -/
theorem empty_intersection_no_artifacts_witness : runMain exD = noEffects :=
  empty_intersection_no_artifacts exD (by decide)

/-- C2: every record written into a run's snapshot has a corresponding row
appended to the history log bearing the run timestamp (the snapshot's
timestamp field) and identical player, profile_url, last_login_raw and
last_login_iso values. -/
theorem snapshot_history_roundtrip (env : RunEnv) (fn : String) (snap : Snapshot)
    (hsnap : (runMain env).snapshot = some (fn, snap))
    (r : ProfileRecord) (hr : r ∈ snap.players) :
    ∃ hdr rows, (runMain env).history = some (hdr, rows) ∧
      (⟨snap.timestamp, r.player, r.profile_url, r.last_login_raw, r.last_login_iso⟩ :
        HistoryRow) ∈ rows := by
  rw [runMain_eq] at hsnap ⊢
  by_cases h : focusOf env = []
  · rw [if_pos h] at hsnap
    simp [noEffects] at hsnap
  · rw [if_neg h] at hsnap ⊢
    simp only [save_snapshot] at hsnap
    injection hsnap with hpair
    injection hpair with hfn hsnapEq
    subst hsnapEq
    refine ⟨_, _, rfl, ?_⟩
    exact List.mem_map.mpr ⟨r, hr, rfl⟩

/-- C2 witness: the round trip at a concrete run producing one record. -/
theorem snapshot_history_roundtrip_witness :
    ∃ hdr rows, (runMain exA).history = some (hdr, rows) ∧
      (⟨"2024-01-01T00:00:00Z", "Alice", exProfile, none, none⟩ : HistoryRow) ∈ rows :=
  snapshot_history_roundtrip exA "snapshot_2024-01-01T00-00-00Z.json"
    ⟨"2024-01-01T00:00:00Z", exURL, [⟨"Alice", exProfile, none, none⟩]⟩
    (by decide) ⟨"Alice", exProfile, none, none⟩ (by decide)

/-- C5: in the intersection-only run, no record — in the snapshot or in the
history log — ever carries a player name absent from the member-link dict. -/
theorem intersection_only_no_foreign (env : RunEnv) (p : String)
    (h : p ∈ (snapshotRows env).map ProfileRecord.player ∨
         p ∈ (historyRowsOf env).map HistoryRow.player) :
    p ∈ (memberLinksOf env).map Prod.fst := by
  apply focus_sub_keys env p
  rcases h with h | h
  · rwa [snapshotRows_eq, rowsOf_map_player] at h
  · rwa [historyRows_map_player] at h

/-- C5 witness: the only recorded player of the concrete run is a
member-link key. -/
theorem intersection_only_no_foreign_witness :
    ("Alice" : String) ∈ (memberLinksOf exA).map Prod.fst :=
  intersection_only_no_foreign exA "Alice" (Or.inl (by decide))

/-- C7: a failing profile fetch does not abort the run: the affected
player's record is still appended with absent raw and absent normalized
last-login fields, in the snapshot and in the history log, and every other
focused player is still processed (the snapshot lists the whole focus). -/
theorem profile_fetch_failure_nonfatal (env : RunEnv) (p u : String)
    (e : FetchError)
    (hp : p ∈ focusOf env)
    (hu : assocGet (memberLinksOf env) p = some u)
    (hfail : env.profilePages u = Except.error e) :
    (⟨p, u, none, none⟩ : ProfileRecord) ∈ snapshotRows env ∧
    (⟨env.runTs, p, u, none, none⟩ : HistoryRow) ∈ historyRowsOf env ∧
    (snapshotRows env).map ProfileRecord.player = focusOf env := by
  have hne : u ≠ "" := memberLinksOf_snd_ne env (p, u) (assocGet_mem _ _ _ hu)
  have hrow : collectRow env (memberLinksOf env) p = some ⟨p, u, none, none⟩ := by
    simp [collectRow, hu, hne, hfail, fetch_last_login]
  have hmem : (⟨p, u, none, none⟩ : ProfileRecord) ∈ rowsOf env := by
    unfold rowsOf
    exact List.mem_filterMap.mpr ⟨p, hp, hrow⟩
  refine ⟨by rw [snapshotRows_eq]; exact hmem, ?_,
    by rw [snapshotRows_eq]; exact rowsOf_map_player env⟩
  rw [historyRows_eq]
  exact List.mem_map.mpr ⟨⟨p, u, none, none⟩, hmem, rfl⟩

/-- C7 witness: the degraded record of the concrete run whose single
profile fetch fails with a network fault. -/
theorem profile_fetch_failure_nonfatal_witness :
    (⟨"Alice", exProfile, none, none⟩ : ProfileRecord) ∈ snapshotRows exA ∧
    (⟨"2024-01-01T00:00:00Z", "Alice", exProfile, none, none⟩ : HistoryRow) ∈
      historyRowsOf exA ∧
    (snapshotRows exA).map ProfileRecord.player = focusOf exA :=
  profile_fetch_failure_nonfatal exA "Alice" exProfile FetchError.networkFault
    (by decide) (by decide) rfl

/-- C8: the loader strips surrounding whitespace from each entry, discards
entries empty after stripping or not strings, returns the deduplicated set
of the remaining names, and fails when the players file is missing. -/
theorem load_target_players_spec (entries : List JsonEntry) :
    (loadedNames entries).Nodup ∧
    (∀ s, s ∈ loadedNames entries ↔
      (s ≠ "" ∧ ∃ p, JsonEntry.str p ∈ entries ∧ strip p = s)) ∧
    load_target_players (some entries) = Except.ok (loadedNames entries) ∧
    load_target_players none = Except.error PyError.fileNotFound := by
  refine ⟨List.nodup_dedup _, ?_, rfl, rfl⟩
  intro s
  unfold loadedNames
  rw [List.mem_dedup, List.mem_filterMap]
  constructor
  · rintro ⟨e, he, hsome⟩
    cases e with
    | str p =>
      by_cases hp : strip p = ""
      · simp [hp] at hsome
      · simp only [if_neg hp] at hsome
        injection hsome with hv
        subst hv
        exact ⟨hp, p, he, rfl⟩
    | other => simp at hsome
  · rintro ⟨hs, p, hp, hstrip⟩
    refine ⟨JsonEntry.str p, hp, ?_⟩
    simp only [hstrip, if_neg hs]

/-- C9: the snapshot's records and the appended history rows are both
ordered by the sorted intersection of the target set with the confirmed
guild member names — ascending lexicographic (code-point) order on the
player name. -/
theorem output_order_sorted (env : RunEnv) :
    (snapshotRows env).map ProfileRecord.player = focusOf env ∧
    (historyRowsOf env).map HistoryRow.player = focusOf env ∧
    List.Sorted (fun a b => strLe a b = true) (focusOf env) := by
  refine ⟨by rw [snapshotRows_eq]; exact rowsOf_map_player env,
    historyRows_map_player env, ?_⟩
  unfold focusOf
  split
  · exact List.sorted_nil
  · split
    · exact List.sorted_nil
    · exact List.sorted_insertionSort _ _
